import Mathlib

/-!
Shallow embedding of the RBF regression network in probeml.py: the model
state (normalization fields, centers, coefficients, radius, kernel), the
staged training operations (adapt_normalization, compute_centers,
fit_weights, fit_weights_and_radius, train), prediction, and the error
metrics, together with theorems settling the specification claims.

Matrices and vectors are embedded as dimensions plus total index
functions over the reals; entries outside the stated dimensions are junk
and every statement quantifies only over in-range indices.  External
library routines (the K-means clustering and the least-squares solver)
are parameters of the operations that call them, constrained by their
documented behaviour in hypotheses where a claim depends on it.
-/

open BigOperators

noncomputable section

/-- A numeric matrix: row count, column count, and a total entry function. -/
structure NMat where
  rows : ℕ
  cols : ℕ
  val : ℕ → ℕ → ℝ

/-- A numeric vector: length and a total entry function. -/
structure NVec where
  len : ℕ
  val : ℕ → ℝ

/-- The default radial basis function of probeml.py: a Gaussian bump. -/
def gaussian (t : ℝ) : ℝ := Real.exp (-0.5 * t ^ 2)

/-- Mean of the entries of a vector, as np.mean computes it. -/
def vecMean (v : NVec) : ℝ := (∑ i in Finset.range v.len, v.val i) / v.len

/-- Population variance of the entries of a vector (np.std squared). -/
def vecVar (v : NVec) : ℝ :=
  (∑ i in Finset.range v.len, (v.val i - vecMean v) ^ 2) / v.len

/-- Population standard deviation of a vector, as np.std computes it. -/
def vecStd (v : NVec) : ℝ := Real.sqrt (vecVar v)

/-- Mean of column j of a matrix, as np.mean with axis 0 computes it. -/
def colMean (A : NMat) (j : ℕ) : ℝ := (∑ i in Finset.range A.rows, A.val i j) / A.rows

/-- Population variance of column j of a matrix. -/
def colVar (A : NMat) (j : ℕ) : ℝ :=
  (∑ i in Finset.range A.rows, (A.val i j - colMean A j) ^ 2) / A.rows

/-- Population standard deviation of column j, as np.std with axis 0. -/
def colStd (A : NMat) (j : ℕ) : ℝ := Real.sqrt (colVar A j)

/-- Mean over all entries of a matrix, as np.mean on the flattened array. -/
def matMean (A : NMat) : ℝ :=
  (∑ i in Finset.range A.rows, ∑ j in Finset.range A.cols, A.val i j) / (A.rows * A.cols)

/-- Population variance over all entries of a matrix. -/
def matVar (A : NMat) : ℝ :=
  (∑ i in Finset.range A.rows, ∑ j in Finset.range A.cols, (A.val i j - matMean A) ^ 2) /
    (A.rows * A.cols)

/-- Population standard deviation over all entries, as np.std on the whole array. -/
def matStd (A : NMat) : ℝ := Real.sqrt (matVar A)

/-- Euclidean distance between row i of A and row j of C, taken over the
columns of A, exactly as np.linalg.norm with axis 1 computes it in
fit_weights and predict. -/
def euclidDist (A : NMat) (i : ℕ) (C : NMat) (j : ℕ) : ℝ :=
  Real.sqrt (∑ t in Finset.range A.cols, (A.val i t - C.val j t) ^ 2)

/-- The RBF network state.  The normalization fields are set by __init__;
centers, coeffs, residual, rbf and radius are unset attributes until the
corresponding training stage runs, embedded as Option fields. -/
structure RBFnet where
  input_shift : ℕ → ℝ
  input_scale : ℕ → ℝ
  output_shift : ℝ
  output_scale : ℝ
  centers : Option NMat
  coeffs : Option NVec
  residual : Option ℝ
  rbf : Option (ℝ → ℝ)
  radius : Option ℝ

/-- A freshly constructed RBFnet: shifts 0, scales 1 (scalars, broadcast
per axis), and no centers, coeffs, residual, rbf or radius attributes. -/
def initRBFnet : RBFnet :=
  { input_shift := fun _ => 0
    input_scale := fun _ => 1
    output_shift := 0
    output_scale := 1
    centers := none
    coeffs := none
    residual := none
    rbf := none
    radius := none }

/-- normalize_input: the affine map (input - input_shift) / input_scale,
broadcast per column. -/
def RBFnet.normalize_input (net : RBFnet) (input : NMat) : NMat :=
  ⟨input.rows, input.cols, fun i j => (input.val i j - net.input_shift j) / net.input_scale j⟩

/-- normalize_output: the affine map (output - output_shift) / output_scale. -/
def RBFnet.normalize_output (net : RBFnet) (output : NVec) : NVec :=
  ⟨output.len, fun i => (output.val i - net.output_shift) / net.output_scale⟩

/-- denormalize_input: the affine map norm_input * input_scale + input_shift. -/
def RBFnet.denormalize_input (net : RBFnet) (norm_input : NMat) : NMat :=
  ⟨norm_input.rows, norm_input.cols,
    fun i j => norm_input.val i j * net.input_scale j + net.input_shift j⟩

/-- denormalize_output: the affine map norm_output * output_scale + output_shift. -/
def RBFnet.denormalize_output (net : RBFnet) (norm_output : NVec) : NVec :=
  ⟨norm_output.len, fun i => norm_output.val i * net.output_scale + net.output_shift⟩

/-- adapt_normalization: set the shift fields to the data means and the
scale fields to the data standard deviations; with keep_aspect the input
scale is the single standard deviation of the whole input array. -/
def RBFnet.adapt_normalization (net : RBFnet) (input : NMat) (output : NVec)
    (keep_aspect : Bool) : RBFnet :=
  { net with
    output_shift := vecMean output
    output_scale := vecStd output
    input_shift := fun j => colMean input j
    input_scale := if keep_aspect then fun _ => matStd input else fun j => colStd input j }

/-- compute_centers: run the external K-means clustering (a parameter
here) on the normalized input and store the resulting cluster centers. -/
def RBFnet.compute_centers (net : RBFnet) (input : NMat) (num : ℕ)
    (random_state : Option ℕ) (kmeans : NMat → ℕ → Option ℕ → NMat) : RBFnet :=
  { net with centers := some (kmeans (net.normalize_input input) num random_state) }

/-- rms_error: the root-mean-square of pred - true over the common length. -/
def rms_error (true_v pred : NVec) : ℝ :=
  Real.sqrt ((∑ i in Finset.range pred.len, (pred.val i - true_v.val i) ^ 2) / pred.len)

/-- The N by K design matrix of fit_weights over the normalized input:
entry (i, j) is rbf applied to the Euclidean distance from normalized
point i to center j, divided by the radius. -/
def designMatrix (net : RBFnet) (input : NMat) (cs : NMat) (radius : ℝ)
    (rbf : ℝ → ℝ) : NMat :=
  ⟨(net.normalize_input input).rows, cs.rows,
    fun i j => rbf (euclidDist (net.normalize_input input) i cs j / radius)⟩

/-- fit_weights: normalize the data, assert the shape contract, build the
design matrix, and store the least-squares solution (the external solver
np.linalg.lstsq is the parameter lstsq, returning the coefficient vector
and the residual).  A failed assert or a missing centers attribute is an
error and leaves no fields written. -/
def RBFnet.fit_weights (net : RBFnet) (input : NMat) (output : NVec) (radius : ℝ)
    (rbf : ℝ → ℝ) (lstsq : NMat → NVec → NVec × ℝ) : Except String RBFnet :=
  let inp := net.normalize_input input
  let outp := net.normalize_output output
  match net.centers with
  | none => Except.error "AttributeError: RBFnet object has no attribute centers"
  | some cs =>
    if inp.rows ≠ outp.len then
      Except.error "different number of data points (length of axis 0) in input and output"
    else if inp.cols ≠ cs.cols then
      Except.error "input independent variable count differs from centers"
    else
      let res := lstsq (designMatrix net input cs radius rbf) outp
      Except.ok { net with
        coeffs := some res.1
        residual := some res.2
        rbf := some rbf
        radius := some radius }

/-- Row i of the matrix-vector product of a design matrix with a
coefficient vector, summing over the matrix columns. -/
def matVecMul (A : NMat) (w : NVec) (i : ℕ) : ℝ :=
  ∑ j in Finset.range A.cols, A.val i j * w.val j

/-- The least-squares cost of coefficients w for the system A w = b. -/
def lsCost (A : NMat) (b : NVec) (w : NVec) : ℝ :=
  ∑ i in Finset.range A.rows, (matVecMul A w i - b.val i) ^ 2

/-- Squared norm of a coefficient vector over the design columns. -/
def coeffNormSq (A : NMat) (w : NVec) : ℝ := ∑ j in Finset.range A.cols, w.val j ^ 2

/-- w solves the linear least-squares problem for A w = b. -/
def IsLeastSquares (A : NMat) (b : NVec) (w : NVec) : Prop :=
  ∀ w' : NVec, lsCost A b w ≤ lsCost A b w'

/-- w is a minimum-norm least-squares solution for A w = b, the documented
behaviour of np.linalg.lstsq for any rank, including rank-deficient and
overdetermined systems. -/
def IsMinNormLeastSquares (A : NMat) (b : NVec) (w : NVec) : Prop :=
  IsLeastSquares A b w ∧ ∀ w' : NVec, IsLeastSquares A b w' → coeffNormSq A w ≤ coeffNormSq A w'

/-- predict: normalize the input, accumulate coeffs j times rbf of
distance over radius for each center j (the running += loop of the
source), and denormalize the result.  Reading an attribute a training
stage has not set is an error. -/
def RBFnet.predict (net : RBFnet) (input : NMat) : Except String NVec :=
  match net.centers, net.coeffs, net.radius, net.rbf with
  | some cs, some co, some r, some k =>
    let inp := net.normalize_input input
    let out : NVec :=
      ⟨input.rows, fun i =>
        (List.range cs.rows).foldl (fun acc j => acc + co.val j * k (euclidDist inp i cs j / r)) 0⟩
    Except.ok (net.denormalize_output out)
  | _, _, _, _ => Except.error "AttributeError: model is not fully fitted"

/-- A Python value passed positionally into fit_weights_and_radius where
the callable measure or the boolean verbose flag is expected: Python is
untyped, so a bool can land in the measure slot and a function in the
verbose slot. -/
inductive PyObj where
  | ofBool : Bool → PyObj
  | ofMeasure : (NVec → NVec → ℝ) → PyObj

/-- Calling a PyObj with two array arguments: a function applies, a bool
raises TypeError. -/
def callMeasure : PyObj → NVec → NVec → Except String ℝ
  | PyObj.ofMeasure f, a, b => Except.ok (f a b)
  | PyObj.ofBool _, _, _ => Except.error "TypeError: bool object is not callable"

/-- Python truthiness of a PyObj: a function object is always truthy. -/
def pyTruthy : PyObj → Bool
  | PyObj.ofBool b => b
  | PyObj.ofMeasure _ => true

/-- The invocation of scipy.optimize.minimize that fit_weights_and_radius
performs: the objective closure, the initial guess, the tolerance and the
method actually passed to the external minimizer, plus whether the
progress callback prints. -/
structure MinimizeCall where
  objective : ℝ → Except String (RBFnet × ℝ)
  x0 : ℝ
  tol : ℝ
  method : String
  verbosePrinting : Bool

/-- The objective closure fun(radius) of fit_weights_and_radius: re-run
fit_weights at the trial radius, predict on the training input, and apply
whatever object occupies the measure parameter to (output, prediction).
The returned pair carries the mutated network state and the error value. -/
def fwrObjective (net : RBFnet) (input : NMat) (output : NVec) (rbf : ℝ → ℝ)
    (measureArg : PyObj) (lstsq : NMat → NVec → NVec × ℝ) (radius : ℝ) :
    Except String (RBFnet × ℝ) := do
  let net' ← net.fit_weights input output radius rbf lstsq
  let pred ← net'.predict input
  let err ← callMeasure measureArg output pred
  Except.ok (net', err)

/-- fit_weights_and_radius: build the objective closure over the measure
slot, then call the external scalar minimizer from radius 1 with the
literal tolerance 1e-6 of the source call site (the tol parameter of the
signature is not forwarded) and the caller's method.  The verbose slot
only gates the printing in the header and callback. -/
def RBFnet.fit_weights_and_radius (net : RBFnet) (input : NMat) (output : NVec)
    (rbf : ℝ → ℝ) (measureArg : PyObj) (verboseArg : PyObj) (method : String)
    (tol : ℝ) (lstsq : NMat → NVec → NVec × ℝ) : MinimizeCall :=
  { objective := fwrObjective net input output rbf measureArg lstsq
    x0 := 1
    tol := 1e-6
    method := method
    verbosePrinting := pyTruthy verboseArg }

/-- The result of train: with radius None the radius optimizer is entered
and the external minimize call is the result; with a given radius the
fit_weights outcome is the result. -/
inductive TrainResult where
  | viaRadiusOpt : MinimizeCall → TrainResult
  | viaFixedRadius : Except String RBFnet → TrainResult

/-- train: adapt_normalization, then compute_centers, then either
fit_weights_and_radius (radius None) or fit_weights.  The arguments rbf,
verbose, measure are passed positionally into fit_weights_and_radius,
whose parameter order is rbf, measure, verbose: the bool verbose lands in
the measure slot and the measure function in the verbose slot, exactly as
at the source call site. -/
def RBFnet.train (net : RBFnet) (input : NMat) (output : NVec) (num : ℕ)
    (radius : Option ℝ) (rbf : ℝ → ℝ) (random_state : Option ℕ) (keep_aspect : Bool)
    (verbose : Bool) (measure : NVec → NVec → ℝ) (kmeans : NMat → ℕ → Option ℕ → NMat)
    (lstsq : NMat → NVec → NVec × ℝ) : TrainResult :=
  let net1 := net.adapt_normalization input output keep_aspect
  let net2 := net1.compute_centers input num random_state kmeans
  match radius with
  | none =>
    TrainResult.viaRadiusOpt
      (net2.fit_weights_and_radius input output rbf (PyObj.ofBool verbose)
        (PyObj.ofMeasure measure) "powell" 1e-6 lstsq)
  | some r => TrainResult.viaFixedRadius (net2.fit_weights input output r rbf lstsq)

/-- An IEEE double abstracted to its finiteness: fin r is an ordinary
value, nonfin stands for inf, -inf or nan.  The relative error metrics
divide by the true values with no guard, so a zero true entry produces a
nonfin that the reductions propagate. -/
inductive Flt where
  | fin : ℝ → Flt
  | nonfin : Flt
deriving DecidableEq

/-- Float addition: any operand that is inf, -inf or nan yields a result
that again is (inf + -inf is nan). -/
def fadd : Flt → Flt → Flt
  | Flt.fin a, Flt.fin b => Flt.fin (a + b)
  | _, _ => Flt.nonfin

/-- Float subtraction with the same nonfinite propagation. -/
def fsub : Flt → Flt → Flt
  | Flt.fin a, Flt.fin b => Flt.fin (a - b)
  | _, _ => Flt.nonfin

/-- Float multiplication restricted to the uses below, where a nonfinite
operand (inf times x, nan times x, inf times 0) never comes back finite. -/
def fmul : Flt → Flt → Flt
  | Flt.fin a, Flt.fin b => Flt.fin (a * b)
  | _, _ => Flt.nonfin

/-- Float division: a zero finite divisor gives inf, -inf or nan, all
nonfin; a nonfinite operand stays nonfinite in the uses below (the
divisors are nonzero data lengths or true values). -/
def fdiv : Flt → Flt → Flt
  | Flt.fin a, Flt.fin b => if b = 0 then Flt.nonfin else Flt.fin (a / b)
  | _, _ => Flt.nonfin

/-- Float square root: negative finite arguments give nan; sqrt of inf is
inf and sqrt of nan or -inf is nan. -/
def fsqrt : Flt → Flt
  | Flt.fin a => if a < 0 then Flt.nonfin else Flt.fin (Real.sqrt a)
  | Flt.nonfin => Flt.nonfin

/-- Float absolute value: abs of inf, -inf or nan is inf or nan. -/
def fabs : Flt → Flt
  | Flt.fin a => Flt.fin |a|
  | Flt.nonfin => Flt.nonfin

/-- Pairwise maximum as np.max reduces after an absolute value: nan
propagates and abs of an infinity is inf, which dominates. -/
def fmaxOp : Flt → Flt → Flt
  | Flt.fin a, Flt.fin b => Flt.fin (max a b)
  | _, _ => Flt.nonfin

/-- np.sum of the first n values of a float sequence. -/
def fsum : ℕ → (ℕ → Flt) → Flt
  | 0, _ => Flt.fin 0
  | n + 1, f => fadd (fsum n f) (f n)

/-- np.max of the first n values of a float sequence (empty input is an
error, folded into nonfin). -/
def fmax : ℕ → (ℕ → Flt) → Flt
  | 0, _ => Flt.nonfin
  | 1, f => f 0
  | n + 2, f => fmaxOp (fmax (n + 1) f) (f (n + 1))

/-- np.mean of the first n values. -/
def fmean (n : ℕ) (f : ℕ → Flt) : Flt := fdiv (fsum n f) (Flt.fin n)

/-- np.std of the first n values: root of the mean squared deviation. -/
def fstd (n : ℕ) (f : ℕ → Flt) : Flt :=
  fsqrt (fmean n (fun i => fmul (fsub (f i) (fmean n f)) (fsub (f i) (fmean n f))))

/-- The elementwise relative error (pred - true) / true of the rel
metrics, with no mask or guard on zero true entries. -/
def relErr (true_v pred : ℕ → ℝ) (i : ℕ) : Flt :=
  fdiv (fsub (Flt.fin (pred i)) (Flt.fin (true_v i))) (Flt.fin (true_v i))

/-- rms_rel_error on n-element data: sqrt of sum of squared relative
errors over the length. -/
def rms_rel_error (n : ℕ) (true_v pred : ℕ → ℝ) : Flt :=
  fsqrt (fdiv (fsum n (fun i => fmul (relErr true_v pred i) (relErr true_v pred i)))
    (Flt.fin n))

/-- max_rel_error on n-element data: max of absolute relative errors. -/
def max_rel_error (n : ℕ) (true_v pred : ℕ → ℝ) : Flt :=
  fmax n (fun i => fabs (relErr true_v pred i))

/-- mean_rel_error on n-element data: mean of absolute relative errors. -/
def mean_rel_error (n : ℕ) (true_v pred : ℕ → ℝ) : Flt :=
  fmean n (fun i => fabs (relErr true_v pred i))

/-- rel_error_bias on n-element data: mean of relative errors. -/
def rel_error_bias (n : ℕ) (true_v pred : ℕ → ℝ) : Flt :=
  fmean n (relErr true_v pred)

/-- rel_error_std on n-element data: standard deviation of relative errors. -/
def rel_error_std (n : ℕ) (true_v pred : ℕ → ℝ) : Flt :=
  fstd n (relErr true_v pred)

/-- A two-point one-column training input with values 0 and 2 (mean 1,
variance 1). -/
def sampleInput : NMat := ⟨2, 1, fun i _ => 2 * i⟩

/-- A two-point training output with values 0 and 2 (mean 1, variance 1). -/
def sampleOutput : NVec := ⟨2, fun i => 2 * i⟩

/-- A two-point one-column input whose single column is constant. -/
def constInput : NMat := ⟨2, 1, fun _ _ => 1⟩

/-- A single one-dimensional center at the origin. -/
def oneCenter : NMat := ⟨1, 1, fun _ _ => 0⟩

/-- A fresh network on which compute_centers has stored oneCenter. -/
def centeredNet : RBFnet := { initRBFnet with centers := some oneCenter }

/-- A fully fitted network: one center, coefficient 2, radius 1, constant
kernel. -/
def fittedNet : RBFnet :=
  { initRBFnet with
    centers := some oneCenter
    coeffs := some ⟨1, fun _ => 2⟩
    residual := some 0
    rbf := some (fun _ => 1)
    radius := some 1 }

/-- A stand-in for the external K-means: one center at the origin with
the input's column count. -/
def originKmeans : NMat → ℕ → Option ℕ → NMat := fun inp _ _ => ⟨1, inp.cols, fun _ _ => 0⟩

/-- A stand-in for the external least-squares solver: every coefficient
is the first output entry, residual 0. -/
def firstLstsq : NMat → NVec → NVec × ℝ := fun A b => (⟨A.cols, fun _ => b.val 0⟩, 0)

/-- A single one-dimensional data point at the origin. -/
def unitInput : NMat := ⟨1, 1, fun _ _ => 0⟩

/-- A single output value 2. -/
def twoOutput : NVec := ⟨1, fun _ => 2⟩

/-- The constant kernel with value 1. -/
def oneKernel : ℝ → ℝ := fun _ => 1

end

/-! Helper lemmas shared by the claim theorems. -/

/-- Accumulating a running sum over List.range is the Finset.range sum. -/
theorem foldl_add_range (g : ℕ → ℝ) : ∀ (n : ℕ) (a : ℝ),
    (List.range n).foldl (fun acc j => acc + g j) a = a + ∑ j in Finset.range n, g j := by
  intro n
  induction n with
  | zero => intro a; simp
  | succ m ih =>
    intro a
    rw [List.range_succ, List.foldl_append, ih, Finset.sum_range_succ]
    simp [add_assoc]

/-- When the shape contract holds, fit_weights succeeds and writes the
least-squares coefficients, the residual, the kernel and the radius. -/
theorem fit_weights_ok (net : RBFnet) (cs : NMat) (input : NMat) (output : NVec)
    (radius : ℝ) (rbf : ℝ → ℝ) (lstsq : NMat → NVec → NVec × ℝ)
    (hcs : net.centers = some cs) (hrow : input.rows = output.len)
    (hcol : input.cols = cs.cols) :
    net.fit_weights input output radius rbf lstsq =
      Except.ok { net with
        coeffs := some (lstsq (designMatrix net input cs radius rbf)
          (net.normalize_output output)).1
        residual := some (lstsq (designMatrix net input cs radius rbf)
          (net.normalize_output output)).2
        rbf := some rbf
        radius := some radius } := by
  simp [RBFnet.fit_weights, hcs, RBFnet.normalize_input, RBFnet.normalize_output, hrow, hcol]

/-- When all fitted attributes are present, predict succeeds with the
denormalized accumulation over the centers. -/
theorem predict_ok (net : RBFnet) (cs : NMat) (co : NVec) (r : ℝ) (k : ℝ → ℝ)
    (input : NMat) (hcs : net.centers = some cs) (hco : net.coeffs = some co)
    (hr : net.radius = some r) (hk : net.rbf = some k) :
    net.predict input = Except.ok (net.denormalize_output
      ⟨input.rows, fun i => (List.range cs.rows).foldl
        (fun acc j => acc + co.val j * k (euclidDist (net.normalize_input input) i cs j / r))
        0⟩) := by
  simp [RBFnet.predict, hcs, hco, hr, hk]

/-- C10: a freshly constructed RBFnet has input_shift 0, output_shift 0,
input_scale 1 and output_scale 1, so before adapt_normalization has ever
run, normalize_input, normalize_output, denormalize_input and
denormalize_output are identity maps on every entry and never fail. -/
theorem initRBFnet_normalization_identity :
    (∀ j, initRBFnet.input_shift j = 0) ∧ (∀ j, initRBFnet.input_scale j = 1) ∧
    initRBFnet.output_shift = 0 ∧ initRBFnet.output_scale = 1 ∧
    (∀ (x : NMat) (i j : ℕ), (initRBFnet.normalize_input x).val i j = x.val i j) ∧
    (∀ (x : NMat) (i j : ℕ), (initRBFnet.denormalize_input x).val i j = x.val i j) ∧
    (∀ (y : NVec) (i : ℕ), (initRBFnet.normalize_output y).val i = y.val i) ∧
    (∀ (y : NVec) (i : ℕ), (initRBFnet.denormalize_output y).val i = y.val i) := by
  refine ⟨fun j => rfl, fun j => rfl, rfl, rfl, ?_, ?_, ?_, ?_⟩ <;>
    intros <;>
    simp [initRBFnet, RBFnet.normalize_input, RBFnet.denormalize_input,
      RBFnet.normalize_output, RBFnet.denormalize_output]

/-- C7: for equal-length nonempty vectors, rms_error is nonnegative and
vanishes exactly when the prediction matches the truth elementwise. -/
theorem rms_error_nonneg_and_zero_iff (t p : NVec) (hlen : t.len = p.len)
    (hpos : 0 < p.len) :
    0 ≤ rms_error t p ∧ (rms_error t p = 0 ↔ ∀ i < p.len, p.val i = t.val i) := by
  have hn : (0 : ℝ) < (p.len : ℝ) := by exact_mod_cast hpos
  refine ⟨Real.sqrt_nonneg _, ?_⟩
  rw [rms_error, Real.sqrt_eq_zero']
  have hS0 : (0 : ℝ) ≤ ∑ k in Finset.range p.len, (p.val k - t.val k) ^ 2 :=
    Finset.sum_nonneg fun k _ => sq_nonneg _
  constructor
  · intro h i hi
    have hdiv0 : (∑ k in Finset.range p.len, (p.val k - t.val k) ^ 2) / p.len = 0 :=
      le_antisymm h (div_nonneg hS0 (le_of_lt hn))
    have hsum : (∑ k in Finset.range p.len, (p.val k - t.val k) ^ 2) = 0 := by
      rcases div_eq_zero_iff.mp hdiv0 with h' | h'
      · exact h'
      · exact absurd h' (ne_of_gt hn)
    have hterm := (Finset.sum_eq_zero_iff_of_nonneg fun k _ => sq_nonneg _).mp hsum i
      (Finset.mem_range.mpr hi)
    have := pow_eq_zero_iff (two_ne_zero) |>.mp hterm
    linarith [sub_eq_zero.mp this]
  · intro h
    have hsum : (∑ k in Finset.range p.len, (p.val k - t.val k) ^ 2) = 0 :=
      Finset.sum_eq_zero fun k hk => by
        rw [h k (Finset.mem_range.mp hk)]
        ring
    rw [hsum]
    simp

/-- Witness for C7: the theorem applied to the one-element vector 3
agreeing with itself. -/
theorem rms_error_nonneg_and_zero_iff_witness :
    0 ≤ rms_error ⟨1, fun _ => 3⟩ ⟨1, fun _ => 3⟩ :=
  (rms_error_nonneg_and_zero_iff ⟨1, fun _ => 3⟩ ⟨1, fun _ => 3⟩ rfl (by norm_num)).1

/-- C2 is false of the code: the tol parameter of fit_weights_and_radius
is never forwarded; the minimize call site carries the literal 1e-6, so a
caller tolerance of 0.01 is silently ignored. -/
theorem fit_weights_and_radius_tol_hardcoded :
    (∀ (net : RBFnet) (input : NMat) (output : NVec) (rbf : ℝ → ℝ)
      (mArg vArg : PyObj) (method : String) (tol : ℝ) (lstsq : NMat → NVec → NVec × ℝ),
      (net.fit_weights_and_radius input output rbf mArg vArg method tol lstsq).tol = 1e-6) ∧
    ((initRBFnet.fit_weights_and_radius sampleInput sampleOutput gaussian
      (PyObj.ofMeasure rms_error) (PyObj.ofBool true) "powell" 0.01 firstLstsq).tol = 1e-6 ∧
      (0.01 : ℝ) ≠ 1e-6) := by
  refine ⟨fun _ _ _ _ _ _ _ _ _ => rfl, rfl, ?_⟩
  norm_num

/-- C6: after adapt_normalization on data of nonzero variance, the
normalization maps are inverse to the denormalization maps: every
in-range entry of any input matrix and any output vector round-trips
exactly. -/
theorem adapt_normalization_roundtrip (net : RBFnet) (input : NMat) (output : NVec)
    (keep_aspect : Bool)
    (hcolv : keep_aspect = false → ∀ j, j < input.cols → 0 < colVar input j)
    (hmatv : keep_aspect = true → 0 < matVar input)
    (houtv : 0 < vecVar output) :
    (∀ (x : NMat) (i j : ℕ), j < input.cols →
      ((net.adapt_normalization input output keep_aspect).denormalize_input
        ((net.adapt_normalization input output keep_aspect).normalize_input x)).val i j
        = x.val i j) ∧
    (∀ (y : NVec) (i : ℕ),
      ((net.adapt_normalization input output keep_aspect).denormalize_output
        ((net.adapt_normalization input output keep_aspect).normalize_output y)).val i
        = y.val i) := by
  have hos : (net.adapt_normalization input output keep_aspect).output_scale ≠ 0 := by
    simp only [RBFnet.adapt_normalization, vecStd]
    exact ne_of_gt (Real.sqrt_pos.mpr houtv)
  have his : ∀ j, j < input.cols →
      (net.adapt_normalization input output keep_aspect).input_scale j ≠ 0 := by
    intro j hj
    cases keep_aspect with
    | false =>
      simp only [RBFnet.adapt_normalization, Bool.false_eq_true, if_false, colStd]
      exact ne_of_gt (Real.sqrt_pos.mpr (hcolv rfl j hj))
    | true =>
      simp only [RBFnet.adapt_normalization, if_true, matStd]
      exact ne_of_gt (Real.sqrt_pos.mpr (hmatv rfl))
  constructor
  · intro x i j hj
    simp only [RBFnet.denormalize_input, RBFnet.normalize_input]
    rw [div_mul_cancel₀ _ (his j hj), sub_add_cancel]
  · intro y i
    simp only [RBFnet.denormalize_output, RBFnet.normalize_output]
    rw [div_mul_cancel₀ _ hos, sub_add_cancel]

/-- Witness for C6: the two-point data set of variance one round-trips
the input entry 5. -/
theorem adapt_normalization_roundtrip_witness :
    ((initRBFnet.adapt_normalization sampleInput sampleOutput false).denormalize_input
      ((initRBFnet.adapt_normalization sampleInput sampleOutput false).normalize_input
        ⟨1, 1, fun _ _ => 5⟩)).val 0 0 = 5 := by
  have hcolv : (false = false) → ∀ j, j < sampleInput.cols → 0 < colVar sampleInput j := by
    intro _ j hj
    have hj0 : j = 0 := Nat.lt_one_iff.mp hj
    subst hj0
    norm_num [colVar, colMean, sampleInput, Finset.sum_range_succ]
  have hmatv : (false = true) → 0 < matVar sampleInput := by intro h; cases h
  have houtv : 0 < vecVar sampleOutput := by
    norm_num [vecVar, vecMean, sampleOutput, Finset.sum_range_succ]
  exact (adapt_normalization_roundtrip initRBFnet sampleInput sampleOutput false
    hcolv hmatv houtv).1 ⟨1, 1, fun _ _ => 5⟩ 0 0 (by norm_num [sampleInput])

/-- C9 fails as stated: on a training set whose single input column is
constant, adapt_normalization stores an input_scale component of zero,
which is not strictly positive. -/
theorem input_scale_not_pos_on_constant_column :
    ¬ (0 < (initRBFnet.adapt_normalization constInput sampleOutput false).input_scale 0) := by
  have hz : (initRBFnet.adapt_normalization constInput sampleOutput false).input_scale 0 = 0 := by
    simp only [RBFnet.adapt_normalization, Bool.false_eq_true, if_false, colStd]
    have hv : colVar constInput 0 = 0 := by
      norm_num [colVar, colMean, constInput, Finset.sum_range_succ]
    rw [hv, Real.sqrt_zero]
  rw [hz]
  norm_num

/-- C9 amended: when every input column has nonzero variance (or, with
keep_aspect, the input as a whole does), every in-range component of
input_scale set by adapt_normalization is strictly positive, and neither
compute_centers nor a successful fit_weights modifies input_scale. -/
theorem input_scale_pos_of_pos_variance (net : RBFnet) (input : NMat) (output : NVec)
    (keep_aspect : Bool)
    (hcolv : keep_aspect = false → ∀ j, j < input.cols → 0 < colVar input j)
    (hmatv : keep_aspect = true → 0 < matVar input) :
    (∀ j, j < input.cols →
      0 < (net.adapt_normalization input output keep_aspect).input_scale j) ∧
    (∀ (m : RBFnet) (inp : NMat) (num : ℕ) (rs : Option ℕ)
      (km : NMat → ℕ → Option ℕ → NMat),
      (m.compute_centers inp num rs km).input_scale = m.input_scale) ∧
    (∀ (m m' : RBFnet) (inp : NMat) (outp : NVec) (r : ℝ) (k : ℝ → ℝ)
      (ls : NMat → NVec → NVec × ℝ),
      m.fit_weights inp outp r k ls = Except.ok m' → m'.input_scale = m.input_scale) := by
  refine ⟨?_, fun _ _ _ _ _ => rfl, ?_⟩
  · intro j hj
    cases keep_aspect with
    | false =>
      simp only [RBFnet.adapt_normalization, Bool.false_eq_true, if_false, colStd]
      exact Real.sqrt_pos.mpr (hcolv rfl j hj)
    | true =>
      simp only [RBFnet.adapt_normalization, if_true, matStd]
      exact Real.sqrt_pos.mpr (hmatv rfl)
  · intro m m' inp outp r k ls h
    cases hm : m.centers with
    | none =>
      rw [RBFnet.fit_weights.eq_def, hm] at h
      cases h
    | some cs =>
      rw [RBFnet.fit_weights.eq_def, hm] at h
      dsimp only at h
      by_cases h1 : (m.normalize_input inp).rows ≠ (m.normalize_output outp).len
      · rw [if_pos h1] at h
        cases h
      · rw [if_neg h1] at h
        by_cases h2 : (m.normalize_input inp).cols ≠ cs.cols
        · rw [if_pos h2] at h
          cases h
        · rw [if_neg h2] at h
          cases h
          rfl

/-- Witness for C9 amended: the two-point variance-one data set yields a
positive input_scale component. -/
theorem input_scale_pos_of_pos_variance_witness :
    0 < (initRBFnet.adapt_normalization sampleInput sampleOutput false).input_scale 0 := by
  have hcolv : (false = false) → ∀ j, j < sampleInput.cols → 0 < colVar sampleInput j := by
    intro _ j hj
    have hj0 : j = 0 := Nat.lt_one_iff.mp hj
    subst hj0
    norm_num [colVar, colMean, sampleInput, Finset.sum_range_succ]
  have hmatv : (false = true) → 0 < matVar sampleInput := by intro h; cases h
  exact (input_scale_pos_of_pos_variance initRBFnet sampleInput sampleOutput false
    hcolv hmatv).1 0 (by norm_num [sampleInput])

/-- C3: with centers stored, a fit_weights call whose input row count
differs from the output row count, or whose input column count differs
from the center dimensionality, stops at the corresponding assert with
its contract-violation message, so no weights are ever computed and no
data is truncated or coerced. -/
theorem fit_weights_shape_contract (net : RBFnet) (cs : NMat) (input : NMat)
    (output : NVec) (radius : ℝ) (rbf : ℝ → ℝ) (lstsq : NMat → NVec → NVec × ℝ)
    (hcs : net.centers = some cs) :
    (input.rows ≠ output.len →
      net.fit_weights input output radius rbf lstsq =
        Except.error "different number of data points (length of axis 0) in input and output") ∧
    (input.rows = output.len → input.cols ≠ cs.cols →
      net.fit_weights input output radius rbf lstsq =
        Except.error "input independent variable count differs from centers") := by
  constructor
  · intro h1
    rw [RBFnet.fit_weights.eq_def, hcs]
    dsimp only
    rw [if_pos]
    exact h1
  · intro h1 h2
    rw [RBFnet.fit_weights.eq_def, hcs]
    dsimp only
    rw [if_neg (by simpa [RBFnet.normalize_input, RBFnet.normalize_output] using h1),
      if_pos]
    exact h2

/-- Witness for C3: one input row against a two-entry output stops at the
row-count assert. -/
theorem fit_weights_shape_contract_witness :
    centeredNet.fit_weights unitInput sampleOutput 1 oneKernel firstLstsq =
      Except.error "different number of data points (length of axis 0) in input and output" :=
  (fit_weights_shape_contract centeredNet oneCenter unitInput sampleOutput 1
    oneKernel firstLstsq rfl).1 (by norm_num [unitInput, sampleOutput])

/-- C4: under the shape preconditions fit_weights builds the N by K
design matrix whose (i, j) entry is the kernel of the Euclidean distance
from normalized point i to center j over the radius, succeeds for any
shape (N may exceed K), and stores the solver's coefficients; when the
solver satisfies the documented minimum-norm least-squares contract of
np.linalg.lstsq, the stored coefficients are a minimum-norm solution of
the least-squares problem for that design matrix. -/
theorem fit_weights_design_and_min_norm (net : RBFnet) (cs : NMat) (input : NMat)
    (output : NVec) (radius : ℝ) (rbf : ℝ → ℝ) (lstsq : NMat → NVec → NVec × ℝ)
    (hcs : net.centers = some cs) (hrow : input.rows = output.len)
    (hcol : input.cols = cs.cols)
    (hls : IsMinNormLeastSquares (designMatrix net input cs radius rbf)
      (net.normalize_output output)
      (lstsq (designMatrix net input cs radius rbf) (net.normalize_output output)).1) :
    (designMatrix net input cs radius rbf).rows = input.rows ∧
    (designMatrix net input cs radius rbf).cols = cs.rows ∧
    (∀ i j, (designMatrix net input cs radius rbf).val i j =
      rbf (Real.sqrt (∑ t in Finset.range input.cols,
        ((net.normalize_input input).val i t - cs.val j t) ^ 2) / radius)) ∧
    net.fit_weights input output radius rbf lstsq =
      Except.ok { net with
        coeffs := some (lstsq (designMatrix net input cs radius rbf)
          (net.normalize_output output)).1
        residual := some (lstsq (designMatrix net input cs radius rbf)
          (net.normalize_output output)).2
        rbf := some rbf
        radius := some radius } ∧
    IsMinNormLeastSquares (designMatrix net input cs radius rbf)
      (net.normalize_output output)
      (lstsq (designMatrix net input cs radius rbf) (net.normalize_output output)).1 :=
  ⟨rfl, rfl, fun _ _ => rfl,
    fit_weights_ok net cs input output radius rbf lstsq hcs hrow hcol, hls⟩

/-- Witness for C4: a one-point, one-center system where the solver
output, coefficient 2, is verified to be the minimum-norm least-squares
solution, and fit_weights stores it. -/
theorem fit_weights_design_and_min_norm_witness :
    centeredNet.fit_weights unitInput twoOutput 1 oneKernel firstLstsq =
      Except.ok { centeredNet with
        coeffs := some (firstLstsq (designMatrix centeredNet unitInput oneCenter 1 oneKernel)
          (centeredNet.normalize_output twoOutput)).1
        residual := some (firstLstsq (designMatrix centeredNet unitInput oneCenter 1 oneKernel)
          (centeredNet.normalize_output twoOutput)).2
        rbf := some oneKernel
        radius := some 1 } := by
  have hw : (firstLstsq (designMatrix centeredNet unitInput oneCenter 1 oneKernel)
      (centeredNet.normalize_output twoOutput)).1.val 0 = 2 := by
    norm_num [firstLstsq, RBFnet.normalize_output, centeredNet, initRBFnet, twoOutput]
  have hcost : ∀ w' : NVec,
      lsCost (designMatrix centeredNet unitInput oneCenter 1 oneKernel)
        (centeredNet.normalize_output twoOutput) w' = (w'.val 0 - 2) ^ 2 := by
    intro w'
    norm_num [lsCost, matVecMul, designMatrix, oneCenter, unitInput, centeredNet, initRBFnet,
      RBFnet.normalize_input, RBFnet.normalize_output, twoOutput, oneKernel,
      Finset.sum_range_one]
  have hnorm : ∀ v : NVec,
      coeffNormSq (designMatrix centeredNet unitInput oneCenter 1 oneKernel) v =
        v.val 0 ^ 2 := by
    intro v
    norm_num [coeffNormSq, designMatrix, oneCenter, Finset.sum_range_one]
  have hls : IsMinNormLeastSquares (designMatrix centeredNet unitInput oneCenter 1 oneKernel)
      (centeredNet.normalize_output twoOutput)
      (firstLstsq (designMatrix centeredNet unitInput oneCenter 1 oneKernel)
        (centeredNet.normalize_output twoOutput)).1 := by
    constructor
    · intro w'
      rw [hcost, hcost, hw]
      simpa using sq_nonneg (w'.val 0 - 2)
    · intro w' hw'
      have hle := hw' (firstLstsq (designMatrix centeredNet unitInput oneCenter 1 oneKernel)
        (centeredNet.normalize_output twoOutput)).1
      rw [hcost, hcost, hw] at hle
      have h0 : (w'.val 0 - 2) ^ 2 = 0 := by
        have := sq_nonneg (w'.val 0 - 2)
        nlinarith
      have hval : w'.val 0 = 2 := by
        have := pow_eq_zero_iff (two_ne_zero) |>.mp h0
        linarith [sub_eq_zero.mp this]
      rw [hnorm, hnorm, hw, hval]
  exact (fit_weights_design_and_min_norm centeredNet oneCenter unitInput twoOutput 1
    oneKernel firstLstsq rfl rfl rfl hls).2.2.2.1

/-- C5: for a model with centers, coeffs, radius and kernel populated,
predict returns for each row the sum over centers of coefficient times
kernel of normalized distance over radius, denormalized with the output
scale and shift; the embedding is a pure function of the model and the
source assigns no field in predict. -/
theorem predict_formula (net : RBFnet) (cs : NMat) (co : NVec) (r : ℝ) (k : ℝ → ℝ)
    (input : NMat) (hcs : net.centers = some cs) (hco : net.coeffs = some co)
    (hr : net.radius = some r) (hk : net.rbf = some k) :
    net.predict input = Except.ok
      ⟨input.rows, fun i =>
        (∑ j in Finset.range cs.rows,
          co.val j * k (euclidDist (net.normalize_input input) i cs j / r)) *
          net.output_scale + net.output_shift⟩ := by
  rw [predict_ok net cs co r k input hcs hco hr hk]
  refine congrArg Except.ok ?_
  refine congrArg (NVec.mk input.rows) ?_
  funext i
  dsimp only [RBFnet.denormalize_output]
  rw [foldl_add_range]
  ring

/-- Witness for C5: the fitted one-center constant-kernel model predicts
through the formula on a single point. -/
theorem predict_formula_witness :
    fittedNet.predict unitInput = Except.ok
      ⟨unitInput.rows, fun i =>
        (∑ j in Finset.range oneCenter.rows,
          (⟨1, fun _ => 2⟩ : NVec).val j *
            oneKernel (euclidDist (fittedNet.normalize_input unitInput) i oneCenter j / 1)) *
          fittedNet.output_scale + fittedNet.output_shift⟩ :=
  predict_formula fittedNet oneCenter ⟨1, fun _ => 2⟩ 1 oneKernel unitInput rfl rfl rfl rfl

/-! Nonfinite propagation through the float operations. -/

/-- Adding a nonfinite float on the left stays nonfinite. -/
theorem fadd_nonfin_left (x : Flt) : fadd Flt.nonfin x = Flt.nonfin := by cases x <;> rfl

/-- Adding a nonfinite float on the right stays nonfinite. -/
theorem fadd_nonfin_right (x : Flt) : fadd x Flt.nonfin = Flt.nonfin := by cases x <;> rfl

/-- Subtracting a nonfinite float stays nonfinite. -/
theorem fsub_nonfin_right (x : Flt) : fsub x Flt.nonfin = Flt.nonfin := by cases x <;> rfl

/-- Multiplying by a nonfinite float on the left stays nonfinite. -/
theorem fmul_nonfin_left (x : Flt) : fmul Flt.nonfin x = Flt.nonfin := by cases x <;> rfl

/-- Dividing a nonfinite float stays nonfinite. -/
theorem fdiv_nonfin_left (x : Flt) : fdiv Flt.nonfin x = Flt.nonfin := by cases x <;> rfl

/-- The elementwise relative error at an index with a zero true value is
a division by zero, hence nonfinite. -/
theorem relErr_nonfin (t p : ℕ → ℝ) (i : ℕ) (h : t i = 0) :
    relErr t p i = Flt.nonfin := by
  simp [relErr, fsub, fdiv, h]

/-- A sum containing a nonfinite term is nonfinite. -/
theorem fsum_nonfin : ∀ (n : ℕ) (f : ℕ → Flt) (i : ℕ), i < n → f i = Flt.nonfin →
    fsum n f = Flt.nonfin := by
  intro n
  induction n with
  | zero => intro f i hi _; exact absurd hi (Nat.not_lt_zero i)
  | succ m ih =>
    intro f i hi hf
    show fadd (fsum m f) (f m) = Flt.nonfin
    rcases Nat.lt_succ_iff_lt_or_eq.mp hi with h | h
    · rw [ih f i h hf]
      exact fadd_nonfin_left _
    · subst h
      rw [hf]
      exact fadd_nonfin_right _

/-- A maximum over values containing a nonfinite one is nonfinite. -/
theorem fmax_nonfin : ∀ (n : ℕ) (f : ℕ → Flt) (i : ℕ), i < n → f i = Flt.nonfin →
    fmax n f = Flt.nonfin := by
  intro n
  induction n with
  | zero => intro f i hi _; exact absurd hi (Nat.not_lt_zero i)
  | succ m ih =>
    intro f i hi hf
    cases m with
    | zero =>
      have hi0 : i = 0 := Nat.lt_one_iff.mp hi
      subst hi0
      simpa [fmax] using hf
    | succ l =>
      show fmaxOp (fmax (l + 1) f) (f (l + 1)) = Flt.nonfin
      rcases Nat.lt_succ_iff_lt_or_eq.mp hi with h | h
      · rw [ih f i h hf]
        cases f (l + 1) <;> rfl
      · subst h
        rw [hf]
        cases fmax (l + 1) f <;> rfl

/-- A mean over values containing a nonfinite one is nonfinite. -/
theorem fmean_nonfin (n : ℕ) (f : ℕ → Flt) (i : ℕ) (hi : i < n)
    (hf : f i = Flt.nonfin) : fmean n f = Flt.nonfin := by
  rw [fmean, fsum_nonfin n f i hi hf]
  exact fdiv_nonfin_left _

/-- A standard deviation over values containing a nonfinite one is
nonfinite. -/
theorem fstd_nonfin (n : ℕ) (f : ℕ → Flt) (i : ℕ) (hi : i < n)
    (hf : f i = Flt.nonfin) : fstd n f = Flt.nonfin := by
  have hm : fmean n f = Flt.nonfin := fmean_nonfin n f i hi hf
  have hg : fmul (fsub (f i) (fmean n f)) (fsub (f i) (fmean n f)) = Flt.nonfin := by
    rw [hm, fsub_nonfin_right]
    exact fmul_nonfin_left _
  rw [fstd, fmean_nonfin n _ i hi hg]
  rfl

/-- C8: whenever some true entry is exactly zero, each relative-error
metric divides by that zero with no mask or guard, and the nonfinite
quotient propagates through the reduction: all five metrics come out
nonfinite. -/
theorem rel_error_metrics_nonfin_on_zero_true (n : ℕ) (t p : ℕ → ℝ) (i : ℕ)
    (hi : i < n) (h0 : t i = 0) :
    rms_rel_error n t p = Flt.nonfin ∧ max_rel_error n t p = Flt.nonfin ∧
    mean_rel_error n t p = Flt.nonfin ∧ rel_error_bias n t p = Flt.nonfin ∧
    rel_error_std n t p = Flt.nonfin := by
  have he : relErr t p i = Flt.nonfin := relErr_nonfin t p i h0
  refine ⟨?_, ?_, ?_, ?_, ?_⟩
  · rw [rms_rel_error,
      fsum_nonfin n _ i hi (by rw [he]; exact fmul_nonfin_left _),
      fdiv_nonfin_left]
    rfl
  · rw [max_rel_error]
    exact fmax_nonfin n _ i hi (by rw [he]; rfl)
  · rw [mean_rel_error]
    exact fmean_nonfin n _ i hi (by rw [he]; rfl)
  · rw [rel_error_bias]
    exact fmean_nonfin n _ i hi he
  · rw [rel_error_std]
    exact fstd_nonfin n _ i hi he

/-- Witness for C8: one data point with true value 0 and prediction 1
makes all five relative metrics nonfinite. -/
theorem rel_error_metrics_nonfin_on_zero_true_witness :
    rms_rel_error 1 (fun _ => 0) (fun _ => 1) = Flt.nonfin ∧
    max_rel_error 1 (fun _ => 0) (fun _ => 1) = Flt.nonfin ∧
    mean_rel_error 1 (fun _ => 0) (fun _ => 1) = Flt.nonfin ∧
    rel_error_bias 1 (fun _ => 0) (fun _ => 1) = Flt.nonfin ∧
    rel_error_std 1 (fun _ => 0) (fun _ => 1) = Flt.nonfin :=
  rel_error_metrics_nonfin_on_zero_true 1 (fun _ => 0) (fun _ => 1) 0
    (by norm_num) rfl

/-- C1 fails of the code: train with radius None passes rbf, verbose,
measure positionally into fit_weights_and_radius, whose parameters are
rbf, measure, verbose, so the boolean verbose flag becomes the objective
measure and the measure function becomes the verbose flag.  Consequently
every objective evaluation calls the bool on (output, prediction) and
raises TypeError, and the progress printing is enabled by the truthiness
of the function object, not by the caller's verbose flag. -/
theorem train_swaps_measure_and_verbose (net : RBFnet) (input : NMat) (output : NVec)
    (num : ℕ) (rbf : ℝ → ℝ) (rs : Option ℕ) (ka : Bool) (verbose : Bool)
    (measure : NVec → NVec → ℝ) (kmeans : NMat → ℕ → Option ℕ → NMat)
    (lstsq : NMat → NVec → NVec × ℝ)
    (hrow : input.rows = output.len)
    (hcol : input.cols =
      (kmeans ((net.adapt_normalization input output ka).normalize_input input) num rs).cols) :
    ∀ mc : MinimizeCall,
      net.train input output num none rbf rs ka verbose measure kmeans lstsq =
        TrainResult.viaRadiusOpt mc →
      mc.verbosePrinting = true ∧
      ∀ r : ℝ, mc.objective r = Except.error "TypeError: bool object is not callable" := by
  intro mc hmc
  have hX : net.train input output num none rbf rs ka verbose measure kmeans lstsq =
      TrainResult.viaRadiusOpt
        (((net.adapt_normalization input output ka).compute_centers input num rs kmeans)
          |>.fit_weights_and_radius input output rbf (PyObj.ofBool verbose)
            (PyObj.ofMeasure measure) "powell" 1e-6 lstsq) := rfl
  rw [hX] at hmc
  injection hmc with hmc'
  subst hmc'
  refine ⟨rfl, ?_⟩
  intro r
  have h1 := fit_weights_ok
    ((net.adapt_normalization input output ka).compute_centers input num rs kmeans)
    (kmeans ((net.adapt_normalization input output ka).normalize_input input) num rs)
    input output r rbf lstsq rfl hrow hcol
  show fwrObjective
    ((net.adapt_normalization input output ka).compute_centers input num rs kmeans)
    input output rbf (PyObj.ofBool verbose) lstsq r = _
  simp only [fwrObjective, h1]
  rfl

/-- Witness for C1: the module's own usage pattern, verbose True and a
function measure, on the two-point data set: the minimize call train
builds has printing on and an objective that raises TypeError at every
trial radius. -/
theorem train_swaps_measure_and_verbose_witness :
    (((initRBFnet.adapt_normalization sampleInput sampleOutput false).compute_centers
        sampleInput 1 none originKmeans).fit_weights_and_radius sampleInput sampleOutput
        gaussian (PyObj.ofBool true) (PyObj.ofMeasure rms_error) "powell" 1e-6
        firstLstsq).verbosePrinting = true ∧
    (((initRBFnet.adapt_normalization sampleInput sampleOutput false).compute_centers
        sampleInput 1 none originKmeans).fit_weights_and_radius sampleInput sampleOutput
        gaussian (PyObj.ofBool true) (PyObj.ofMeasure rms_error) "powell" 1e-6
        firstLstsq).objective 1 =
      Except.error "TypeError: bool object is not callable" := by
  have h := train_swaps_measure_and_verbose initRBFnet sampleInput sampleOutput 1 gaussian
    none false true rms_error originKmeans firstLstsq rfl rfl
    (((initRBFnet.adapt_normalization sampleInput sampleOutput false).compute_centers
        sampleInput 1 none originKmeans).fit_weights_and_radius sampleInput sampleOutput
        gaussian (PyObj.ofBool true) (PyObj.ofMeasure rms_error) "powell" 1e-6
        firstLstsq)
    rfl
  exact ⟨h.1, h.2 1⟩
